import Mathlib

/-!
Verification of the bounty-challenge reward system.

This file gives a shallow embedding of the core logic of the repository:

* the multi-validator consensus engine (`wasm/src/consensus.rs`),
* the weight/scoring formulas (`src/scoring.rs` — the wasm scoring module —
  and `src/pg_storage.rs`),
* the wasm key-value ledger (`wasm/src/storage/bounty_storage.rs`),
* the Postgres issue ledger (`PgStorage::upsert_issue` and friends),
* the admin-bonus subsystem (`PgStorage::grant_admin_bonus` / `revoke_bonus`).

Conventions of the embedding:

* `f64` arithmetic is modelled by exact rational arithmetic over `ℚ`
  (the constants 0.25, 2.0, 0.025, 0.02 become `1/4`, `2`, `1/40`, `1/50`);
  the spec states its numeric guarantees up to floating tolerance, and all
  comparisons proved here are robust to rounding.
* the host key-value store and the Postgres tables are modelled as
  association lists keyed by the same composite keys the code uses;
  `u32` counters use `ℕ` with explicit saturation at `2^32 - 1` where the
  code uses `saturating_add`.
* wall-clock / epoch reads (`host_consensus_get_epoch`, `NOW()`) are passed
  in as explicit parameters.
-/

namespace Bounty

/-! ### Association-list store primitives -/

def assocFind {K V : Type} [DecidableEq K] : List (K × V) → K → Option V
  | [], _ => none
  | (k2, v) :: rest, k => if k2 = k then some v else assocFind rest k

def assocUpsert {K V : Type} [DecidableEq K] : List (K × V) → K → V → List (K × V)
  | [], k, v => [(k, v)]
  | (k2, v2) :: rest, k, v =>
      if k2 = k then (k2, v) :: rest else (k2, v2) :: assocUpsert rest k v

/-- Conditional insert-if-absent (`INSERT ... ON CONFLICT DO NOTHING`). -/
def assocInsertIfAbsent {K V : Type} [DecidableEq K] (l : List (K × V)) (k : K) (v : V) :
    List (K × V) :=
  if (assocFind l k).isSome then l else l ++ [(k, v)]

/-- Deletion of every row with the given key (`DELETE FROM ... WHERE key = k`). -/
def assocErase {K V : Type} [DecidableEq K] (l : List (K × V)) (k : K) : List (K × V) :=
  l.filter fun p => decide (p.1 ≠ k)

/-- Structural model of Rust's `to_lowercase()` / SQL `LOWER` (per-character
ASCII lowercasing, written structurally so that concrete states evaluate). -/
def lowerString (s : String) : String := String.mk (s.data.map Char.toLower)

/-! ### Consensus engine (`wasm/src/consensus.rs`) -/

structure IssueValidityProposal where
  validator_id : String
  issue_number : Nat
  repo_owner : String
  repo_name : String
  is_valid : Bool
deriving DecidableEq, Repr

/-- Synced issue record as stored by the wasm challenge (`wasm/src/types.rs`). -/
structure IssueRecord where
  issue_number : Nat
  repo_owner : String
  repo_name : String
  author : String
  is_closed : Bool
  has_valid_label : Bool
  has_invalid_label : Bool
  claimed_by_hotkey : Option String
  recorded_epoch : Nat
deriving DecidableEq, Repr

/-- Proposals relevant to one issue subject, as filtered in `check_issue_consensus`. -/
def relevantProposals (proposals : List IssueValidityProposal) (issue_number : Nat)
    (repo_owner repo_name : String) : List IssueValidityProposal :=
  proposals.filter fun p =>
    p.issue_number = issue_number ∧ p.repo_owner = repo_owner ∧ p.repo_name = repo_name

/-- Majority resolution of issue validity (`check_issue_consensus`). -/
def check_issue_consensus (proposals : List IssueValidityProposal) (issue_number : Nat)
    (repo_owner repo_name : String) : Option Bool :=
  let relevant := relevantProposals proposals issue_number repo_owner repo_name
  if relevant.isEmpty then none
  else
    let total := relevant.length
    let threshold := total / 2 + 1
    let valid_count := (relevant.filter fun p => p.is_valid).length
    let invalid_count := total - valid_count
    if valid_count ≥ threshold then some true
    else if invalid_count ≥ threshold then some false
    else none

/-- Canonicalized (ascending) list of issue numbers of a sync proposal. -/
def sortedNums (issues : List IssueRecord) : List Nat :=
  (issues.map fun i => i.issue_number).insertionSort (fun a b => a ≤ b)

/-- Grouping loop of `check_sync_consensus`: for each proposal in order, bump the
count of its canonicalized issue-number set, remembering the index of the first
proposal that produced the set. -/
def syncCounts (proposals : List (String × List IssueRecord)) :
    List (List Nat × Nat × Nat) :=
  proposals.foldl
    (fun counts pr =>
      let nums := sortedNums pr.2
      if counts.any fun c => c.1 = nums then
        counts.map fun c => if c.1 = nums then (c.1, c.2.1 + 1, c.2.2) else c
      else
        let idx := ((proposals.findIdx? fun q => sortedNums q.2 = nums).getD 0)
        counts ++ [(nums, 1, idx)])
    []

/-- Majority resolution of the synced snapshot (`check_sync_consensus`). -/
def check_sync_consensus (proposals : List (String × List IssueRecord)) :
    Option (List IssueRecord) :=
  if proposals.isEmpty then none
  else
    let threshold := proposals.length / 2 + 1
    match (syncCounts proposals).find? fun c => threshold ≤ c.2.1 with
    | some c => some (((proposals.get? c.2.2).map fun p => p.2).getD [])
    | none => none

/-- Proposal set for the worked example: five validators, three voting true. -/
def exampleProposals5 : List IssueValidityProposal :=
  [⟨"v1", 1, "o", "r", true⟩, ⟨"v2", 1, "o", "r", true⟩, ⟨"v3", 1, "o", "r", true⟩,
   ⟨"v4", 1, "o", "r", false⟩, ⟨"v5", 1, "o", "r", false⟩]

/-- Proposal set for the worked example: four validators split two against two. -/
def exampleProposals4 : List IssueValidityProposal :=
  [⟨"v1", 1, "o", "r", true⟩, ⟨"v2", 1, "o", "r", true⟩,
   ⟨"v3", 1, "o", "r", false⟩, ⟨"v4", 1, "o", "r", false⟩]

/-! ### Weight and point formulas -/

/-- Policy constant of the wasm scoring module (`src/scoring.rs`): 0.025. -/
def WEIGHT_PER_POINT : ℚ := 1/40

/-- Policy constant of the wasm scoring module: 0.25 points per starred repo. -/
def STAR_BONUS_PER_REPO : ℚ := 1/4

/-- Policy constant of `src/pg_storage.rs`: 0.02 weight per point. -/
def pgWEIGHT_PER_POINT : ℚ := 1/50

/-- Raw weight of the wasm scoring module (`calculate_weight_from_points`):
ignores the invalid count entirely. -/
def calculate_weight_from_points (valid_count star_count : ℕ) : ℚ :=
  let issue_points : ℚ := valid_count
  let star_points : ℚ := star_count * STAR_BONUS_PER_REPO
  let total_points := issue_points + star_points
  total_points * WEIGHT_PER_POINT

/-- Net points of the wasm scoring module (`calculate_net_points`): the penalty
is `invalid_count - valid_count` when positive, else zero. -/
def calculate_net_points (valid_count invalid_count star_count : ℕ) : ℚ :=
  let issue_points : ℚ := valid_count
  let star_points : ℚ := star_count * STAR_BONUS_PER_REPO
  let penalty : ℚ :=
    if invalid_count > valid_count then ((invalid_count - valid_count : ℕ) : ℚ) else 0
  max (issue_points + star_points - penalty) 0

/-- Net points of `PgStorage::calculate_user_weight`: 1 point per valid issue,
0.25 per star, minus 2.0 per invalid issue (not floored as a value). -/
def pg_net_points (valid_count invalid_count star_count : ℕ) : ℚ :=
  (valid_count : ℚ) + star_count * (1/4) - invalid_count * 2

/-- Weight of `PgStorage::calculate_user_weight`: zero when net points are
non-positive, else net points times 0.02. -/
def pg_calculate_user_weight (valid_count invalid_count star_count : ℕ) : ℚ :=
  let net_points := pg_net_points valid_count invalid_count star_count
  if net_points ≤ 0 then 0 else net_points * pgWEIGHT_PER_POINT

/-- Net-points formula exactly as the specification words it:
`max(validCount + starCount * STAR_BONUS - invalidCount * PENALTY_MULTIPLIER, 0)`
with `PENALTY_MULTIPLIER = 2.0` and `STAR_BONUS = 0.25`. Used only to compare
the code's formulas against the claim. -/
def specNetPoints (valid_count invalid_count star_count : ℕ) : ℚ :=
  max ((valid_count : ℚ) + star_count * (1/4) - invalid_count * 2) 0

/-! ### Reward-account balances (`wasm/src/types.rs`, `bounty_storage.rs`) -/

/-- Saturation bound of the `u32` counters. -/
def U32_MAX : ℕ := 2 ^ 32 - 1

/-- Saturating addition on the `u32` counters (`saturating_add`). -/
def satAdd (a b : ℕ) : ℕ := min (a + b) U32_MAX

structure UserBalance where
  valid_count : ℕ
  invalid_count : ℕ
  duplicate_count : ℕ
  star_count : ℕ
  is_penalized : Bool
deriving DecidableEq, Repr

/-- `UserBalance::default()`. -/
def defaultUserBalance : UserBalance :=
  { valid_count := 0, invalid_count := 0, duplicate_count := 0, star_count := 0,
    is_penalized := false }

/-- `increment_valid_count` on the stored balance (the penalty flag is not
recomputed here). -/
def increment_valid_count (b : UserBalance) : UserBalance :=
  { b with valid_count := satAdd b.valid_count 1 }

/-- `increment_invalid_count` on the stored balance: bumps the invalid count,
then recomputes the penalty flag from the updated counts. -/
def increment_invalid_count (b : UserBalance) : UserBalance :=
  let b1 := { b with invalid_count := satAdd b.invalid_count 1 }
  let penalty := satAdd (b1.invalid_count - b1.valid_count)
    (b1.duplicate_count - b1.valid_count)
  { b1 with is_penalized := decide (penalty > 0) }

/-- Mutations a reward-account balance can undergo. The `setStar` constructor
is modelled from the spec: the external star-sync collaborator (its code is
not among the sources under inspection) mutates only `starCount`. -/
inductive BalanceOp : Type where
  | validInc : BalanceOp
  | invalidInc : BalanceOp
  | setStar : ℕ → BalanceOp

def applyBalanceOp (b : UserBalance) : BalanceOp → UserBalance
  | .validInc => increment_valid_count b
  | .invalidInc => increment_invalid_count b
  | .setStar n => { b with star_count := n }

/-- Balances reachable from the default balance through the mutations the code
performs. -/
inductive ReachableBalance : UserBalance → Prop where
  | init : ReachableBalance defaultUserBalance
  | step {b : UserBalance} (op : BalanceOp) :
      ReachableBalance b → ReachableBalance (applyBalanceOp b op)

/-- Weight reported by `handle_status` (`wasm/src/api/handlers.rs` lines
104-109): zero when penalized, else the raw weight from points. -/
def handle_status_weight (b : UserBalance) : ℚ :=
  if b.is_penalized then 0 else calculate_weight_from_points b.valid_count b.star_count

/-! ### Leaderboard and weight publication -/

structure WeightAssignment where
  hotkey : String
  weight : ℚ
deriving DecidableEq, Repr

structure LeaderboardEntry where
  rank : ℕ
  hotkey : String
  github_username : String
  score : ℚ
  valid_issues : ℕ
  invalid_issues : ℕ
  pending_issues : ℕ
  star_count : ℕ
  star_bonus : ℚ
  net_points : ℚ
  is_penalized : Bool
  last_epoch : ℕ
deriving DecidableEq, Repr

/-- Entry built by `rebuild_leaderboard` for one registered hotkey. -/
def rebuild_leaderboard_entry (hotkey github_username : String) (b : UserBalance)
    (epoch : ℕ) : LeaderboardEntry :=
  { rank := 0
    hotkey := hotkey
    github_username := github_username
    score := calculate_weight_from_points b.valid_count b.star_count
    valid_issues := b.valid_count
    invalid_issues := b.invalid_count
    pending_issues := 0
    star_count := b.star_count
    star_bonus := b.star_count * STAR_BONUS_PER_REPO
    net_points := calculate_net_points b.valid_count b.invalid_count b.star_count
    is_penalized := b.is_penalized
    last_epoch := epoch }

/-- Descending sort by weight (`sort_by` with reversed `partial_cmp`). -/
def sortWeightAssignmentsDesc (ws : List WeightAssignment) : List WeightAssignment :=
  ws.insertionSort fun a b => b.weight ≤ a.weight

/-- Weight publication of the wasm module (`calculate_weights_from_leaderboard`):
filter out penalized and zero-score entries, normalize to sum 1 when the total
is positive, sort descending. -/
def calculate_weights_from_leaderboard (entries : List LeaderboardEntry) :
    List WeightAssignment :=
  let weights := (entries.filter fun e => e.is_penalized = false ∧ e.score > 0).map
    fun e => WeightAssignment.mk e.hotkey e.score
  let total : ℚ := (weights.map fun w => w.weight).sum
  let normalized :=
    if total > 0 then weights.map fun w => WeightAssignment.mk w.hotkey (w.weight / total)
    else weights
  sortWeightAssignmentsDesc normalized

/-- Row of the `current_weights` snapshot served by the native server. -/
structure CurrentWeight where
  github_username : String
  hotkey : String
  weight : ℚ
  is_penalized : Bool
deriving DecidableEq, Repr

structure WeightEntry where
  hotkey : String
  weight : ℚ
deriving DecidableEq, Repr

def sortWeightEntriesDesc (ws : List WeightEntry) : List WeightEntry :=
  ws.insertionSort fun a b => b.weight ≤ a.weight

/-- Core of `get_weights_handler` (`src/server.rs` lines 206-229): filter to
positive-weight non-penalized accounts, normalize when the total is positive,
sort descending. -/
def get_weights_core (current_weights : List CurrentWeight) : List WeightEntry :=
  let weights := (current_weights.filter fun w => w.weight > 0 ∧ w.is_penalized = false).map
    fun w => WeightEntry.mk w.hotkey w.weight
  let total : ℚ := (weights.map fun w => w.weight).sum
  let normalized :=
    if total > 0 then weights.map fun w => WeightEntry.mk w.hotkey (w.weight / total)
    else weights
  sortWeightEntriesDesc normalized

/-- Published weight of a hotkey in a weight-assignment list (zero when the
hotkey was filtered out of the publication). -/
def publishedWeight (ws : List WeightAssignment) (hotkey : String) : ℚ :=
  ((ws.filter fun w => w.hotkey = hotkey).map fun w => w.weight).sum

/-- Example leaderboard entry used in closed witnesses: two valid issues, one
star, never penalized. -/
def exampleEntryPos : LeaderboardEntry :=
  rebuild_leaderboard_entry "hk1" "alice" (UserBalance.mk 2 0 0 1 false) 7

/-- Example current-weight row used in closed witnesses. -/
def exampleCurrentWeight : CurrentWeight :=
  CurrentWeight.mk "alice" "hk1" (1/10) false

/-- Balance reached by three valid credits followed by four invalid penalties:
the penalty flag ends up set, yet the wasm net points stay positive. -/
def balancePenalizedPositive : UserBalance :=
  applyBalanceOp (applyBalanceOp (applyBalanceOp (applyBalanceOp
    (applyBalanceOp (applyBalanceOp (applyBalanceOp defaultUserBalance
      BalanceOp.validInc) BalanceOp.validInc) BalanceOp.validInc)
    BalanceOp.invalidInc) BalanceOp.invalidInc) BalanceOp.invalidInc) BalanceOp.invalidInc

/-- Balance reached by a single valid credit. -/
def balanceOneValid : UserBalance :=
  applyBalanceOp defaultUserBalance BalanceOp.validInc

/-- Leaderboard entry of the penalized account with positive net points. -/
def entryPenalizedPositive : LeaderboardEntry :=
  rebuild_leaderboard_entry "hkA" "alice" balancePenalizedPositive 0

/-- Leaderboard entry of the account with a single valid issue. -/
def entryOneValid : LeaderboardEntry :=
  rebuild_leaderboard_entry "hkB" "bob" balanceOneValid 0

/-! ### Wasm key-value storage (`wasm/src/storage/bounty_storage.rs`) -/

structure UserRegistration where
  hotkey : String
  github_username : String
  registered_epoch : ℕ
deriving DecidableEq, Repr

structure InvalidIssueRecord where
  issue_number : ℕ
  repo_owner : String
  repo_name : String
  github_username : String
  reason : Option String
  recorded_epoch : ℕ
deriving DecidableEq, Repr

/-- Host key-value store of the wasm challenge, one component per key prefix
(`issue:`, `invalid_issue:`, `user:`, `github:`, `balance:`); composite issue
keys are kept structured. -/
structure WasmState where
  issues : List ((String × String × ℕ) × IssueRecord)
  invalidIssues : List ((String × String × ℕ) × InvalidIssueRecord)
  users : List (String × UserRegistration)
  githubIdx : List (String × String)
  balances : List (String × UserBalance)
deriving DecidableEq, Repr

def get_user_by_hotkey (s : WasmState) (hotkey : String) : Option UserRegistration :=
  assocFind s.users hotkey

def get_hotkey_by_github (s : WasmState) (github_username : String) : Option String :=
  assocFind s.githubIdx (lowerString github_username)

def get_github_by_hotkey (s : WasmState) (hotkey : String) : Option String :=
  (get_user_by_hotkey s hotkey).map fun r => r.github_username

def get_user_balance (s : WasmState) (hotkey : String) : UserBalance :=
  (assocFind s.balances hotkey).getD defaultUserBalance

def store_user_balance (s : WasmState) (hotkey : String) (b : UserBalance) : WasmState :=
  { s with balances := assocUpsert s.balances hotkey b }

/-- State-level `increment_valid_count` (read balance, bump, store). -/
def wasm_increment_valid_count (s : WasmState) (hotkey : String) : WasmState :=
  store_user_balance s hotkey (increment_valid_count (get_user_balance s hotkey))

/-- State-level `increment_invalid_count` (read balance, bump and recompute
the penalty flag, store). -/
def wasm_increment_invalid_count (s : WasmState) (hotkey : String) : WasmState :=
  store_user_balance s hotkey (increment_invalid_count (get_user_balance s hotkey))

/-- Write stage of `register_user`: store the registration under `user:hotkey`
and the reverse index under `github:<lowercased username>`. -/
def register_user_write (s : WasmState) (github_username hotkey : String) (epoch : ℕ) :
    Bool × WasmState :=
  let registration : UserRegistration :=
    { hotkey := hotkey, github_username := github_username, registered_epoch := epoch }
  let s1 := { s with users := assocUpsert s.users hotkey registration }
  (true, { s1 with githubIdx := assocUpsert s1.githubIdx (lowerString github_username) hotkey })

/-- Second guard of `register_user`: a hotkey already bound to a different
(case-insensitive) username is rejected. -/
def register_user_tail (s : WasmState) (github_username hotkey : String) (epoch : ℕ) :
    Bool × WasmState :=
  match get_github_by_hotkey s hotkey with
  | some existing =>
      if lowerString existing ≠ lowerString github_username then (false, s)
      else register_user_write s github_username hotkey epoch
  | none => register_user_write s github_username hotkey epoch

/-- `register_user` of the wasm storage: reject when the username is bound to
another hotkey, or the hotkey to another username; otherwise (re)write the
binding. -/
def register_user (s : WasmState) (github_username hotkey : String) (epoch : ℕ) :
    Bool × WasmState :=
  match get_hotkey_by_github s github_username with
  | some existing =>
      if existing ≠ hotkey then (false, s)
      else register_user_tail s github_username hotkey epoch
  | none => register_user_tail s github_username hotkey epoch

/-- `record_valid_issue`: insert-if-absent on the issue key; on first insert
credit the hotkey, otherwise report failure and change nothing. -/
def record_valid_issue (s : WasmState) (issue_number : ℕ)
    (repo_owner repo_name author hotkey : String) (epoch : ℕ) : Bool × WasmState :=
  let key := (repo_owner, repo_name, issue_number)
  if (assocFind s.issues key).isSome then (false, s)
  else
    let record : IssueRecord :=
      { issue_number := issue_number, repo_owner := repo_owner, repo_name := repo_name,
        author := author, is_closed := true, has_valid_label := true,
        has_invalid_label := false, claimed_by_hotkey := some hotkey,
        recorded_epoch := epoch }
    let s1 := { s with issues := assocUpsert s.issues key record }
    (true, wasm_increment_valid_count s1 hotkey)

/-- `record_invalid_issue`: always (re)write the penalty marker under the
composite key, then increment the author's invalid count whenever the author
resolves to a hotkey. -/
def record_invalid_issue (s : WasmState) (issue_number : ℕ)
    (repo_owner repo_name github_username : String) (reason : Option String)
    (epoch : ℕ) : Bool × WasmState :=
  let record : InvalidIssueRecord :=
    { issue_number := issue_number, repo_owner := repo_owner, repo_name := repo_name,
      github_username := github_username, reason := reason, recorded_epoch := epoch }
  let key := (repo_owner, repo_name, issue_number)
  let s1 := { s with invalidIssues := assocUpsert s.invalidIssues key record }
  match get_hotkey_by_github s1 github_username with
  | some hotkey => (true, wasm_increment_invalid_count s1 hotkey)
  | none => (true, s1)

/-! ### Postgres issue ledger (`src/pg_storage.rs`) -/

inductive LabelChange : Type where
  | none : LabelChange
  | becameValid : LabelChange
  | becameInvalid : LabelChange
  | lostValid : LabelChange
deriving DecidableEq, Repr

/-- GitHub issue snapshot handed to `upsert_issue` (fields of
`crate::github::GitHubIssue` the ledger consults; timestamps are elided). -/
structure GitHubIssue where
  number : ℕ
  user_login : String
  title : String
  body : Option String
  state : String
  labels : List String
  html_url : String
deriving DecidableEq, Repr

/-- Stored `github_issues` row (timestamps elided; `deleted` models
`deleted_at IS NOT NULL`). -/
structure PgIssueRow where
  github_username : String
  title : String
  body : Option String
  state : String
  labels : List String
  deleted : Bool
deriving DecidableEq, Repr

/-- Stored `resolved_issues` row (credit record). -/
structure ResolvedIssueRow where
  github_username : String
  hotkey : Option String
  issue_url : String
  title : String
deriving DecidableEq, Repr

/-- Stored `invalid_issues` row (penalty marker). -/
structure InvalidIssueRow where
  github_username : String
  hotkey : Option String
  issue_url : String
  title : String
  reason : String
deriving DecidableEq, Repr

/-- Postgres state the ledger touches: issues, credits, penalty markers, and
the registration table (usernames stored lowercased, unique per username). -/
structure PgState where
  github_issues : List ((String × String × ℕ) × PgIssueRow)
  resolved_issues : List ((String × String × ℕ) × ResolvedIssueRow)
  invalid_issues : List ((String × String × ℕ) × InvalidIssueRow)
  github_registrations : List (String × String)
deriving DecidableEq, Repr

/-- `get_hotkey_by_github` (SQL `LOWER(github_username) = LOWER($1)`). -/
def pg_get_hotkey_by_github (s : PgState) (github_username : String) : Option String :=
  (s.github_registrations.find? fun r => lowerString r.1 = lowerString github_username).map
    fun r => r.2

/-- Number of credits held by a hotkey (COUNT over `resolved_issues`; the 24h
window of the SQL is elided — the state holds the windowed rows). -/
def pg_valid_count (s : PgState) (hotkey : String) : ℕ :=
  (s.resolved_issues.filter fun r => r.2.hotkey = some hotkey).length

/-- Number of penalties held by a hotkey (COUNT over `invalid_issues`). -/
def pg_invalid_count (s : PgState) (hotkey : String) : ℕ :=
  (s.invalid_issues.filter fun r => r.2.hotkey = some hotkey).length

/-- Transition classification of `upsert_issue` (the if-chain over the label
booleans and the two already-recorded probes). -/
def classify_change (has_valid has_invalid had_valid had_invalid
    already_credited already_recorded_invalid : Bool) : LabelChange :=
  if has_invalid ∧ ¬had_invalid then
    (if ¬already_recorded_invalid then LabelChange.becameInvalid else LabelChange.none)
  else if had_valid ∧ ¬has_valid then LabelChange.lostValid
  else if has_valid ∧ ¬had_valid then
    (if ¬already_credited then LabelChange.becameValid else LabelChange.none)
  else if has_valid ∧ had_valid then
    (if ¬already_credited then LabelChange.becameValid else LabelChange.none)
  else if has_invalid ∧ had_invalid then
    (if ¬already_recorded_invalid then LabelChange.becameInvalid else LabelChange.none)
  else LabelChange.none

/-- Side effects of `upsert_issue` per classified change: insert-if-absent of
the penalty marker, deletion of the credit, or insert-if-absent of the
credit. -/
def apply_change (s : PgState) (key : String × String × ℕ) (issue : GitHubIssue) :
    LabelChange → PgState
  | LabelChange.becameInvalid =>
      let row : InvalidIssueRow :=
        { github_username := lowerString issue.user_login,
          hotkey := pg_get_hotkey_by_github s issue.user_login,
          issue_url := issue.html_url, title := issue.title,
          reason := "Marked as invalid" }
      { s with invalid_issues := assocInsertIfAbsent s.invalid_issues key row }
  | LabelChange.lostValid =>
      { s with resolved_issues := assocErase s.resolved_issues key }
  | LabelChange.becameValid =>
      let row : ResolvedIssueRow :=
        { github_username := lowerString issue.user_login,
          hotkey := pg_get_hotkey_by_github s issue.user_login,
          issue_url := issue.html_url, title := issue.title }
      { s with resolved_issues := assocInsertIfAbsent s.resolved_issues key row }
  | LabelChange.none => s

/-- Transition computed by `upsert_issue`: the stored labels (absence treated
as no labels) against the incoming snapshot, with the two already-recorded
probes. -/
def upsert_change (s : PgState) (issue : GitHubIssue) (repo_owner repo_name : String) :
    LabelChange :=
  let key := (repo_owner, repo_name, issue.number)
  let has_valid := issue.labels.contains "valid"
  let has_invalid := issue.labels.contains "invalid"
  let prev := assocFind s.github_issues key
  let had_valid := (prev.map fun r => r.labels.contains "valid").getD false
  let had_invalid := (prev.map fun r => r.labels.contains "invalid").getD false
  let already_recorded_invalid := (assocFind s.invalid_issues key).isSome
  let already_credited := (assocFind s.resolved_issues key).isSome
  classify_change has_valid has_invalid had_valid had_invalid
    already_credited already_recorded_invalid

/-- Fresh `github_issues` row written by `upsert_issue` (the upsert clears the
deletion marker). -/
def upsert_row (issue : GitHubIssue) : PgIssueRow :=
  { github_username := issue.user_login, title := issue.title, body := issue.body,
    state := issue.state, labels := issue.labels, deleted := false }

/-- `PgStorage::upsert_issue`: classify the transition against the stored
labels, apply the credit/penalty side effect, then upsert the issue row
(clearing the deletion marker). -/
def upsert_issue (s : PgState) (issue : GitHubIssue) (repo_owner repo_name : String) :
    LabelChange × PgState :=
  let key := (repo_owner, repo_name, issue.number)
  let change := upsert_change s issue repo_owner repo_name
  let s1 := apply_change s key issue change
  (change, { s1 with github_issues := assocUpsert s1.github_issues key (upsert_row issue) })

/-- Consistency invariant of the Postgres ledger: a stored issue row carrying
the `invalid` label has its penalty marker recorded (markers are inserted
whenever the label is first observed and never removed). -/
def PgInv (s : PgState) : Prop :=
  ∀ key row, assocFind s.github_issues key = some row →
    row.labels.contains "invalid" = true → (assocFind s.invalid_issues key).isSome = true

/-- `PgStorage::register_user` (the raw storage operation): delete the
hotkey's previous binding to a different username, then upsert by username —
with no conflict check. -/
def pg_register_user (regs : List (String × String)) (github_username hotkey : String) :
    List (String × String) :=
  let username_lower := lowerString github_username
  let remaining := regs.filter fun r => ¬(r.2 = hotkey ∧ r.1 ≠ username_lower)
  assocUpsert remaining username_lower hotkey

def regs_hotkey_by_github (regs : List (String × String)) (github_username : String) :
    Option String :=
  (regs.find? fun r => lowerString r.1 = lowerString github_username).map fun r => r.2

def regs_github_by_hotkey (regs : List (String × String)) (hotkey : String) :
    Option String :=
  (regs.find? fun r => r.2 = hotkey).map fun r => r.1

/-- Second guard of the HTTP `register_handler`: the hotkey must not be bound
to a different (case-insensitive) username. -/
def register_handler_tail (regs : List (String × String)) (github_username hotkey : String) :
    Bool × List (String × String) :=
  match regs_github_by_hotkey regs hotkey with
  | some existing_username =>
      if lowerString existing_username ≠ lowerString github_username then (false, regs)
      else (true, pg_register_user regs github_username hotkey)
  | none => (true, pg_register_user regs github_username hotkey)

/-- Registration flow of the HTTP server (`src/server.rs` `register_handler`,
after signature verification): reject either conflicting rebinding before
calling the storage upsert. -/
def register_handler_flow (regs : List (String × String)) (github_username hotkey : String) :
    Bool × List (String × String) :=
  match regs_hotkey_by_github regs github_username with
  | some existing_hotkey =>
      if existing_hotkey ≠ hotkey then (false, regs)
      else register_handler_tail regs github_username hotkey
  | none => register_handler_tail regs github_username hotkey

/-! ### Admin bonuses (`src/pg_storage.rs` ADMIN BONUS METHODS) -/

structure AdminBonus where
  id : ℤ
  hotkey : String
  bonus_weight : ℚ
  reason : Option String
  granted_by : String
  granted_at : ℕ
  expires_at : ℕ
  active : Bool
deriving DecidableEq, Repr

/-- `grant_admin_bonus`: a new active bonus expiring `duration_hours`
(default 24) after now; time is measured in hours. -/
def grant_admin_bonus (bonuses : List AdminBonus) (id : ℤ) (hotkey : String)
    (bonus_weight : ℚ) (reason : Option String) (granted_by : String)
    (duration_hours : Option ℕ) (now : ℕ) : List AdminBonus :=
  let bonus : AdminBonus :=
    { id := id, hotkey := hotkey, bonus_weight := bonus_weight,
      reason := reason, granted_by := granted_by, granted_at := now,
      expires_at := now + duration_hours.getD 24, active := true }
  bonuses ++ [bonus]

/-- `revoke_bonus`: `UPDATE admin_bonuses SET active = false, reason =
COALESCE(reason,'') || ' [Revoked by <who>]' WHERE id = $1 AND active = true`;
returns whether any row was updated. -/
def revoke_bonus (bonuses : List AdminBonus) (bonus_id : ℤ) (revoked_by : String) :
    Bool × List AdminBonus :=
  let updated := bonuses.map fun b =>
    if b.id = bonus_id ∧ b.active = true then
      { b with
        active := false,
        reason := some ((b.reason.getD "") ++ " [Revoked by " ++ revoked_by ++ "]") }
    else b
  (bonuses.any fun b => b.id = bonus_id ∧ b.active = true, updated)

/-- Modelled from the spec: the `active_admin_bonuses` SQL view and the bonus
contribution to published weight are defined in the migrations, which are not
among the sources under inspection; per the spec an `AdminBonus` contributes
its `bonusWeight` iff `active && now < expiresAt`, evaluated at read time. -/
def bonus_contribution (now : ℕ) (b : AdminBonus) : ℚ :=
  if b.active = true ∧ now < b.expires_at then b.bonus_weight else 0

/-- Modelled from the spec: `list_active_bonuses` reads the
`active_admin_bonuses` view, i.e. bonuses with `active && now < expiresAt`. -/
def list_active_bonuses (now : ℕ) (bonuses : List AdminBonus) : List AdminBonus :=
  bonuses.filter fun b => b.active = true ∧ now < b.expires_at

/-! ### Fixtures for closed counterexamples and witnesses -/

/-- Wasm state with the single registration alice ↦ hk. -/
def wasmStateAliceRegistered : WasmState :=
  { issues := [], invalidIssues := [],
    users := [("hk", { hotkey := "hk", github_username := "alice", registered_epoch := 0 })],
    githubIdx := [("alice", "hk")], balances := [] }

/-- First invalid observation of issue 5 against the registered state. -/
def invalidOnce : Bool × WasmState :=
  record_invalid_issue wasmStateAliceRegistered 5 "o" "r" "alice" (some "spam") 0

/-- Second, identical invalid observation. -/
def invalidTwice : Bool × WasmState :=
  record_invalid_issue invalidOnce.2 5 "o" "r" "alice" (some "spam") 0

/-- Postgres state with the single registration alice ↦ hk. -/
def pgStateAliceRegistered : PgState :=
  { github_issues := [], resolved_issues := [], invalid_issues := [],
    github_registrations := [("alice", "hk")] }

/-- Issue snapshot carrying both the `valid` and the `invalid` label. -/
def dualLabelIssue : GitHubIssue :=
  { number := 1, user_login := "alice", title := "t", body := none, state := "closed",
    labels := ["valid", "invalid"], html_url := "u" }

/-- Issue snapshot carrying only the `valid` label. -/
def validLabelIssue : GitHubIssue :=
  { number := 2, user_login := "alice", title := "t2", body := none, state := "closed",
    labels := ["valid"], html_url := "u2" }

/-- First application of the dual-label snapshot. -/
def dualUpsertOnce : LabelChange × PgState :=
  upsert_issue pgStateAliceRegistered dualLabelIssue "o" "r"

/-- Second application of the same dual-label snapshot. -/
def dualUpsertTwice : LabelChange × PgState :=
  upsert_issue dualUpsertOnce.2 dualLabelIssue "o" "r"

/-- Bonus that is still flagged active but whose expiry has passed at time 10. -/
def exampleExpiredBonus : AdminBonus :=
  { id := 1, hotkey := "hk", bonus_weight := 5, reason := none, granted_by := "admin",
    granted_at := 0, expires_at := 10, active := true }

/-- Bonus that is active and far from expiry. -/
def exampleActiveBonus : AdminBonus :=
  { id := 2, hotkey := "hk", bonus_weight := 5, reason := some "good",
    granted_by := "admin", granted_at := 0, expires_at := 100, active := true }

end Bounty

namespace Bounty

/-! ### Theorems: association-list lemmas -/

theorem assocFind_upsert_self {K V : Type} [DecidableEq K] (l : List (K × V)) (k : K) (v : V) :
    assocFind (assocUpsert l k v) k = some v := by
  induction l with
  | nil => simp [assocUpsert, assocFind]
  | cons hd tl ih =>
      obtain ⟨k2, v2⟩ := hd
      by_cases h : k2 = k <;> simp [assocUpsert, assocFind, h, ih]

theorem assocUpsert_idem {K V : Type} [DecidableEq K] (l : List (K × V)) (k : K) (v : V) :
    assocUpsert (assocUpsert l k v) k v = assocUpsert l k v := by
  induction l with
  | nil => simp [assocUpsert]
  | cons hd tl ih =>
      obtain ⟨k2, v2⟩ := hd
      by_cases h : k2 = k <;> simp [assocUpsert, h, ih]

theorem assocInsertIfAbsent_of_isSome {K V : Type} [DecidableEq K]
    {l : List (K × V)} {k : K} (v : V) (h : (assocFind l k).isSome) :
    assocInsertIfAbsent l k v = l := by
  simp [assocInsertIfAbsent, h]

theorem assocFind_append_self {K V : Type} [DecidableEq K] (l : List (K × V)) (k : K) (v : V) :
    (assocFind (l ++ [(k, v)]) k).isSome := by
  induction l with
  | nil => simp [assocFind]
  | cons hd tl ih =>
      obtain ⟨k2, v2⟩ := hd
      by_cases hk : k2 = k <;> simp [assocFind, hk, ih]

theorem assocFind_insertIfAbsent_isSome {K V : Type} [DecidableEq K]
    (l : List (K × V)) (k : K) (v : V) :
    (assocFind (assocInsertIfAbsent l k v) k).isSome := by
  by_cases h : (assocFind l k).isSome
  · simp [assocInsertIfAbsent, h]
  · simpa [assocInsertIfAbsent, h] using assocFind_append_self l k v

/-! ### Theorems: consensus -/

/-- Helper: the split counts of the relevant proposal list. -/
theorem filter_length_le_of_proposals (rel : List IssueValidityProposal) :
    (rel.filter fun p => p.is_valid).length ≤ rel.length :=
  List.length_filter_le _ _

/-- C1: with `n` relevant proposals for a subject, issue-validity resolution
returns `some true` when the true-verdict count reaches `n / 2 + 1`,
`some false` when the false-verdict count reaches `n / 2 + 1`, and `none`
otherwise; in particular five proposals split 3 true / 2 false resolve `true`
and four proposals split 2 / 2 stay unresolved. -/
theorem check_issue_consensus_quorum :
    (∀ (proposals : List IssueValidityProposal) (num : Nat) (ro rn : String),
      ((relevantProposals proposals num ro rn).length / 2 + 1 ≤
          ((relevantProposals proposals num ro rn).filter fun p => p.is_valid).length →
        check_issue_consensus proposals num ro rn = some true) ∧
      ((relevantProposals proposals num ro rn).length / 2 + 1 ≤
          (relevantProposals proposals num ro rn).length -
            ((relevantProposals proposals num ro rn).filter fun p => p.is_valid).length →
        check_issue_consensus proposals num ro rn = some false) ∧
      (((relevantProposals proposals num ro rn).filter fun p => p.is_valid).length <
          (relevantProposals proposals num ro rn).length / 2 + 1 →
        (relevantProposals proposals num ro rn).length -
            ((relevantProposals proposals num ro rn).filter fun p => p.is_valid).length <
          (relevantProposals proposals num ro rn).length / 2 + 1 →
        check_issue_consensus proposals num ro rn = none)) ∧
    check_issue_consensus exampleProposals5 1 "o" "r" = some true ∧
    check_issue_consensus exampleProposals4 1 "o" "r" = none := by
  refine ⟨?_, by decide, by decide⟩
  intro proposals num ro rn
  have hle := filter_length_le_of_proposals (relevantProposals proposals num ro rn)
  unfold check_issue_consensus
  dsimp only
  refine ⟨?_, ?_, ?_⟩
  · intro h
    split_ifs with h1 h2 h3 <;>
      first
        | rfl
        | (rw [List.isEmpty_iff] at h1; simp [h1] at h)
        | (exfalso; omega)
  · intro h
    split_ifs with h1 h2 h3 <;>
      first
        | rfl
        | (rw [List.isEmpty_iff] at h1; simp [h1] at h)
        | (exfalso; omega)
  · intro ht hf
    split_ifs with h1 h2 h3 <;>
      first
        | rfl
        | (exfalso; omega)

/-- Closed witness for the quorum theorem, instantiating the general clause at a
concrete proposal set. -/
theorem check_issue_consensus_quorum_witness :
    check_issue_consensus exampleProposals5 1 "o" "r" = some true :=
  (check_issue_consensus_quorum.1 exampleProposals5 1 "o" "r").1 (by decide)

/-- C10: the two verdict counts can never both reach the threshold
`floor(n/2) + 1` for the same subject, so resolution returns at most one
verdict; and with zero proposals for a subject both issue-validity and
sync-snapshot resolution return `none`. -/
theorem consensus_at_most_one_verdict :
    (∀ (proposals : List IssueValidityProposal) (num : Nat) (ro rn : String),
      ¬((relevantProposals proposals num ro rn).length / 2 + 1 ≤
          ((relevantProposals proposals num ro rn).filter fun p => p.is_valid).length ∧
        (relevantProposals proposals num ro rn).length / 2 + 1 ≤
          (relevantProposals proposals num ro rn).length -
            ((relevantProposals proposals num ro rn).filter fun p => p.is_valid).length)) ∧
    (∀ (proposals : List IssueValidityProposal) (num : Nat) (ro rn : String),
      relevantProposals proposals num ro rn = [] →
        check_issue_consensus proposals num ro rn = none) ∧
    (∀ proposals : List (String × List IssueRecord),
      proposals = [] → check_sync_consensus proposals = none) := by
  refine ⟨?_, ?_, ?_⟩
  · intro proposals num ro rn
    have hle := filter_length_le_of_proposals (relevantProposals proposals num ro rn)
    omega
  · intro proposals num ro rn h
    unfold check_issue_consensus
    simp [h]
  · intro proposals h
    subst h
    rfl

/-- Closed witness: zero proposals resolve to `none` on both engines. -/
theorem consensus_at_most_one_verdict_witness :
    check_issue_consensus [] 1 "o" "r" = none ∧ check_sync_consensus [] = none :=
  ⟨consensus_at_most_one_verdict.2.1 [] 1 "o" "r" (by decide),
   consensus_at_most_one_verdict.2.2 [] rfl⟩

/-! ### Theorems: net-points formulas (C2) -/

/-- Helper: the wasm net-points formula written with `max` instead of the
conditional natural subtraction. -/
theorem calculate_net_points_max_form (v i s : ℕ) :
    calculate_net_points v i s = max ((v : ℚ) + s * (1/4) - max ((i : ℚ) - v) 0) 0 := by
  rw [calculate_net_points]
  simp only [STAR_BONUS_PER_REPO]
  by_cases hiv : v < i
  · have hvc : (v : ℚ) ≤ (i : ℚ) := by exact_mod_cast hiv.le
    have hcast : ((i - v : ℕ) : ℚ) = (i : ℚ) - v := by
      push_cast [Nat.cast_sub hiv.le]
      ring
    rw [if_pos hiv, hcast, max_eq_left (sub_nonneg.mpr hvc)]
  · push_neg at hiv
    have hvc : (i : ℚ) ≤ (v : ℚ) := by exact_mod_cast hiv
    rw [if_neg (not_lt.mpr hiv), max_eq_right (sub_nonpos.mpr hvc)]

/-- Helper: while the invalid count does not exceed the valid count, the wasm
net points carry no penalty at all. -/
theorem calculate_net_points_no_penalty {v i : ℕ} (s : ℕ) (hle : i ≤ v) :
    calculate_net_points v i s = (v : ℚ) + s * (1/4) := by
  rw [calculate_net_points]
  simp only [STAR_BONUS_PER_REPO]
  rw [if_neg (not_lt.mpr hle), sub_zero]
  have hnn : (0 : ℚ) ≤ (v : ℚ) + (s : ℚ) * (1/4) := by positivity
  rw [max_eq_left hnn]

/-- Helper: wasm net points are never negative. -/
theorem calculate_net_points_nonneg (v i s : ℕ) : 0 ≤ calculate_net_points v i s := by
  rw [calculate_net_points]
  exact le_max_right _ _

/-- Helper: the wasm raw weight written without its let-bindings. -/
theorem calculate_weight_from_points_eq (v s : ℕ) :
    calculate_weight_from_points v s = ((v : ℚ) + s * (1/4)) * (1/40) := by
  rw [calculate_weight_from_points]
  norm_num [STAR_BONUS_PER_REPO, WEIGHT_PER_POINT]

/-- Helper: the Postgres user weight is never negative. -/
theorem pg_calculate_user_weight_nonneg (v i s : ℕ) :
    0 ≤ pg_calculate_user_weight v i s := by
  rw [pg_calculate_user_weight]
  split_ifs with h
  · exact le_refl 0
  · push_neg at h
    have : (0 : ℚ) < pgWEIGHT_PER_POINT := by norm_num [pgWEIGHT_PER_POINT]
    exact (mul_pos h this).le

/-- Helper: the Postgres user weight is monotone in the Postgres net points. -/
theorem pg_calculate_user_weight_mono {v1 i1 s1 v2 i2 s2 : ℕ}
    (h : pg_net_points v2 i2 s2 ≤ pg_net_points v1 i1 s1) :
    pg_calculate_user_weight v2 i2 s2 ≤ pg_calculate_user_weight v1 i1 s1 := by
  rw [pg_calculate_user_weight, pg_calculate_user_weight]
  split_ifs with h2 h1 h1
  · exact le_refl 0
  · push_neg at h1
    have : (0 : ℚ) < pgWEIGHT_PER_POINT := by norm_num [pgWEIGHT_PER_POINT]
    exact (mul_pos h1 this).le
  · exact absurd (le_trans h h1) h2
  · have : (0 : ℚ) ≤ pgWEIGHT_PER_POINT := by norm_num [pgWEIGHT_PER_POINT]
    exact mul_le_mul_of_nonneg_right h this

/-- C2 counterexample: for an account with one valid and one invalid issue the
wasm scoring module reports 1 net point, while the claimed formula
`max(valid + 0.25 * star - 2.0 * invalid, 0)` gives 0 — an invalid issue does
not subtract 2.0 points in this code path. -/
theorem net_points_formula_counterexample :
    calculate_net_points 1 1 0 = 1 ∧ specNetPoints 1 1 0 = 0 := by
  constructor
  · norm_num [calculate_net_points, STAR_BONUS_PER_REPO]
  · norm_num [specNetPoints]

/-- C2 amended: `PgStorage::calculate_user_weight` follows the claimed formula
(2.0 penalty per invalid issue, weight zero at or below zero net points), while
the wasm `calculate_net_points` subtracts only `max(invalid - valid, 0)` with
multiplier 1.0, so an invalid issue costs nothing while `invalid ≤ valid`. -/
theorem net_points_formulas (v i s : ℕ) :
    (0 < specNetPoints v i s →
      pg_calculate_user_weight v i s = specNetPoints v i s * pgWEIGHT_PER_POINT) ∧
    (specNetPoints v i s = 0 → pg_calculate_user_weight v i s = 0) ∧
    calculate_net_points v i s = max ((v : ℚ) + s * (1/4) - max ((i : ℚ) - v) 0) 0 ∧
    (i ≤ v → calculate_net_points v i s = (v : ℚ) + s * (1/4)) := by
  have hspec : specNetPoints v i s = max (pg_net_points v i s) 0 := rfl
  refine ⟨?_, ?_, ?_, ?_⟩
  · intro hpos
    rw [hspec] at hpos ⊢
    have hn : 0 < pg_net_points v i s := by
      rcases lt_max_iff.mp hpos with h | h
      · exact h
      · exact absurd h (lt_irrefl 0)
    rw [pg_calculate_user_weight, if_neg (not_le.mpr hn), max_eq_left hn.le]
  · intro hz
    rw [hspec] at hz
    have hn : pg_net_points v i s ≤ 0 := by
      by_contra hc
      push_neg at hc
      rw [max_eq_left hc.le] at hz
      exact absurd hz hc.ne'
    rw [pg_calculate_user_weight, if_pos hn]
  · exact calculate_net_points_max_form v i s
  · intro hle
    exact calculate_net_points_no_penalty s hle

/-- Closed witness for the amended net-points theorem at an account with two
valid issues, one invalid issue, and one star. -/
theorem net_points_formulas_witness :
    pg_calculate_user_weight 2 1 1 = specNetPoints 2 1 1 * pgWEIGHT_PER_POINT ∧
    calculate_net_points 2 1 1 = 9/4 := by
  constructor
  · exact (net_points_formulas 2 1 1).1 (by norm_num [specNetPoints, pg_net_points])
  · have h := (net_points_formulas 2 1 1).2.2.2 (by norm_num)
    rw [h]
    norm_num

/-! ### Theorems: reachable balances and the penalty floor (C5) -/

/-- Helper invariant of every balance the wasm storage can produce: the
duplicate count is never written, the counters respect the `u32` bound, and a
balance whose penalty flag reads `false` has at most as many invalid as valid
issues (the flag is recomputed on every invalid increment and valid counts
only grow afterwards). -/
theorem reachable_balance_invariant {b : UserBalance} (h : ReachableBalance b) :
    b.duplicate_count = 0 ∧ b.valid_count ≤ U32_MAX ∧ b.invalid_count ≤ U32_MAX ∧
      (b.is_penalized = false → b.invalid_count ≤ b.valid_count) := by
  induction h with
  | init =>
      refine ⟨rfl, ?_, ?_, fun _ => le_refl 0⟩ <;> norm_num [defaultUserBalance, U32_MAX]
  | step op hb ih =>
      obtain ⟨hdup, hv, hi, hflag⟩ := ih
      cases op with
      | validInc =>
          refine ⟨hdup, ?_, hi, ?_⟩
          · simp only [applyBalanceOp, increment_valid_count, satAdd]
            omega
          · intro hf
            simp only [applyBalanceOp, increment_valid_count] at hf ⊢
            have := hflag hf
            simp only [satAdd, U32_MAX] at *
            omega
      | invalidInc =>
          refine ⟨hdup, hv, ?_, ?_⟩
          · simp only [applyBalanceOp, increment_invalid_count, satAdd]
            omega
          · intro hf
            simp only [applyBalanceOp, increment_invalid_count, satAdd, decide_eq_false_iff_not,
              not_lt, Nat.le_zero] at hf ⊢
            simp only [U32_MAX] at *
            omega
      | setStar n =>
          exact ⟨hdup, hv, hi, fun hf => hflag hf⟩

/-- C5: the Postgres per-user weight is zero whenever net points are at or
below zero and is never negative; and for every reachable wasm balance the
status endpoint reports weight zero whenever the wasm net points are at or
below zero, and never a negative weight. -/
theorem penalty_floor_weights (v i s : ℕ) (b : UserBalance) (hb : ReachableBalance b) :
    0 ≤ pg_calculate_user_weight v i s ∧
    (pg_net_points v i s ≤ 0 → pg_calculate_user_weight v i s = 0) ∧
    0 ≤ handle_status_weight b ∧
    (calculate_net_points b.valid_count b.invalid_count b.star_count ≤ 0 →
      handle_status_weight b = 0) := by
  refine ⟨pg_calculate_user_weight_nonneg v i s, ?_, ?_, ?_⟩
  · intro h
    rw [pg_calculate_user_weight, if_pos h]
  · rw [handle_status_weight]
    split_ifs with hp
    · exact le_refl 0
    · rw [calculate_weight_from_points_eq]
      positivity
  · intro hnet
    rw [handle_status_weight]
    split_ifs with hp
    · rfl
    · have hflag : b.is_penalized = false := by
        cases hcase : b.is_penalized
        · rfl
        · exact absurd hcase hp
      obtain ⟨hdup, hvb, hib, himp⟩ := reachable_balance_invariant hb
      have hiv := himp hflag
      rw [calculate_net_points_no_penalty b.star_count hiv] at hnet
      have hv0 : (b.valid_count : ℚ) = 0 := by
        have h1 : (0 : ℚ) ≤ (b.valid_count : ℚ) := Nat.cast_nonneg _
        have h2 : (0 : ℚ) ≤ (b.star_count : ℚ) * (1/4) := by positivity
        linarith
      have hs0 : (b.star_count : ℚ) = 0 := by
        have h1 : (0 : ℚ) ≤ (b.valid_count : ℚ) := Nat.cast_nonneg _
        have h2 : (0 : ℚ) ≤ (b.star_count : ℚ) := Nat.cast_nonneg _
        nlinarith
      rw [calculate_weight_from_points_eq, hv0, hs0]
      ring

/-- Closed witness for the penalty floor: an account with one invalid issue
and nothing else has Postgres weight zero, and the empty reachable balance
reports status weight zero. -/
theorem penalty_floor_weights_witness :
    pg_calculate_user_weight 0 1 0 = 0 ∧ handle_status_weight defaultUserBalance = 0 := by
  constructor
  · exact (penalty_floor_weights 0 1 0 defaultUserBalance ReachableBalance.init).2.1
      (by norm_num [pg_net_points])
  · exact (penalty_floor_weights 0 1 0 defaultUserBalance ReachableBalance.init).2.2.2
      (by norm_num [defaultUserBalance, calculate_net_points, STAR_BONUS_PER_REPO])

/-! ### Theorems: weight normalization (C6) -/

/-- Helper: a nonempty list of positive rationals, divided by its sum, sums
to one. -/
theorem normalized_sum_eq_one (l : List ℚ) (hne : l ≠ []) (hpos : ∀ x ∈ l, 0 < x) :
    (l.map fun x => x / l.sum).sum = 1 := by
  have hs : 0 < l.sum := List.sum_pos l hpos hne
  simp only [div_eq_mul_inv]
  rw [show (l.map fun x => x * l.sum⁻¹).sum = l.sum * l.sum⁻¹ by
    simpa using List.sum_map_mul_right l id l.sum⁻¹]
  exact mul_inv_cancel₀ hs.ne'

/-- Helper: the descending sort used by the wasm publisher preserves the sum
of the published weights. -/
theorem sortWeightAssignmentsDesc_sum (l : List WeightAssignment) :
    ((sortWeightAssignmentsDesc l).map fun w => w.weight).sum =
      (l.map fun w => w.weight).sum :=
  ((List.perm_insertionSort _ l).map _).sum_eq

/-- Helper: the descending sort used by the server publisher preserves the sum
of the published weights. -/
theorem sortWeightEntriesDesc_sum (l : List WeightEntry) :
    ((sortWeightEntriesDesc l).map fun w => w.weight).sum =
      (l.map fun w => w.weight).sum :=
  ((List.perm_insertionSort _ l).map _).sum_eq

/-- Helper: normalization step of the wasm publisher over a nonempty list of
positive weights sums to one. -/
theorem wasm_normalized_sum_one (ws : List WeightAssignment)
    (hpos : ∀ x ∈ ws.map fun w => w.weight, 0 < x) (hne : ws ≠ []) :
    ((sortWeightAssignmentsDesc
        (if (ws.map fun w => w.weight).sum > 0
         then ws.map fun w =>
           WeightAssignment.mk w.hotkey (w.weight / (ws.map fun w => w.weight).sum)
         else ws)).map fun w => w.weight).sum = 1 := by
  have hne2 : (ws.map fun w => w.weight) ≠ [] := by
    intro hcon
    exact hne (List.map_eq_nil.mp hcon)
  have htot : 0 < (ws.map fun w => w.weight).sum := List.sum_pos _ hpos hne2
  rw [if_pos htot, sortWeightAssignmentsDesc_sum, List.map_map]
  rw [show ((fun w : WeightAssignment => w.weight) ∘ fun w : WeightAssignment =>
      WeightAssignment.mk w.hotkey (w.weight / (ws.map fun w => w.weight).sum)) =
      fun w : WeightAssignment => w.weight / (ws.map fun w => w.weight).sum from rfl]
  rw [show (ws.map fun w => w.weight / (ws.map fun w => w.weight).sum) =
      ((ws.map fun w => w.weight).map fun x => x / (ws.map fun w => w.weight).sum) by
    rw [List.map_map]; rfl]
  exact normalized_sum_eq_one _ hne2 hpos

/-- Helper: normalization step of the server publisher over a nonempty list of
positive weights sums to one. -/
theorem server_normalized_sum_one (ws : List WeightEntry)
    (hpos : ∀ x ∈ ws.map fun w => w.weight, 0 < x) (hne : ws ≠ []) :
    ((sortWeightEntriesDesc
        (if (ws.map fun w => w.weight).sum > 0
         then ws.map fun w =>
           WeightEntry.mk w.hotkey (w.weight / (ws.map fun w => w.weight).sum)
         else ws)).map fun w => w.weight).sum = 1 := by
  have hne2 : (ws.map fun w => w.weight) ≠ [] := by
    intro hcon
    exact hne (List.map_eq_nil.mp hcon)
  have htot : 0 < (ws.map fun w => w.weight).sum := List.sum_pos _ hpos hne2
  rw [if_pos htot, sortWeightEntriesDesc_sum, List.map_map]
  rw [show ((fun w : WeightEntry => w.weight) ∘ fun w : WeightEntry =>
      WeightEntry.mk w.hotkey (w.weight / (ws.map fun w => w.weight).sum)) =
      fun w : WeightEntry => w.weight / (ws.map fun w => w.weight).sum from rfl]
  rw [show (ws.map fun w => w.weight / (ws.map fun w => w.weight).sum) =
      ((ws.map fun w => w.weight).map fun x => x / (ws.map fun w => w.weight).sum) by
    rw [List.map_map]; rfl]
  exact normalized_sum_eq_one _ hne2 hpos

/-- C6: both weight publishers filter to positive-weight non-penalized
accounts; when the filtered set is non-empty the published normalized weights
sum to exactly 1 (in the exact-rational model of the `f64` arithmetic), and
when it is empty the published list is empty with no division performed. -/
theorem weights_normalization (entries : List LeaderboardEntry) (cw : List CurrentWeight) :
    ((entries.filter fun e => e.is_penalized = false ∧ e.score > 0) ≠ [] →
      ((calculate_weights_from_leaderboard entries).map fun w => w.weight).sum = 1) ∧
    ((entries.filter fun e => e.is_penalized = false ∧ e.score > 0) = [] →
      calculate_weights_from_leaderboard entries = []) ∧
    ((cw.filter fun w => w.weight > 0 ∧ w.is_penalized = false) ≠ [] →
      ((get_weights_core cw).map fun w => w.weight).sum = 1) ∧
    ((cw.filter fun w => w.weight > 0 ∧ w.is_penalized = false) = [] →
      get_weights_core cw = []) := by
  refine ⟨?_, ?_, ?_, ?_⟩
  · intro hne
    unfold calculate_weights_from_leaderboard
    apply wasm_normalized_sum_one
    · intro x hx
      rw [List.map_map] at hx
      obtain ⟨e, he, rfl⟩ := List.mem_map.mp hx
      have h2 := List.of_mem_filter he
      simp only [decide_eq_true_eq] at h2
      exact h2.2
    · intro hcon
      exact hne (List.map_eq_nil.mp hcon)
  · intro hz
    unfold calculate_weights_from_leaderboard
    rw [hz]
    rfl
  · intro hne
    unfold get_weights_core
    apply server_normalized_sum_one
    · intro x hx
      rw [List.map_map] at hx
      obtain ⟨e, he, rfl⟩ := List.mem_map.mp hx
      have h2 := List.of_mem_filter he
      simp only [decide_eq_true_eq] at h2
      exact h2.1
    · intro hcon
      exact hne (List.map_eq_nil.mp hcon)
  · intro hz
    unfold get_weights_core
    rw [hz]
    rfl

/-- Closed witness: one retained account publishes total weight 1, and an
all-penalized snapshot publishes the empty list. -/
theorem weights_normalization_witness :
    ((calculate_weights_from_leaderboard [exampleEntryPos]).map fun w => w.weight).sum = 1 ∧
    ((get_weights_core [exampleCurrentWeight]).map fun w => w.weight).sum = 1 := by
  constructor
  · exact (weights_normalization [exampleEntryPos] []).1
      (by norm_num [List.filter, exampleEntryPos, rebuild_leaderboard_entry,
        calculate_weight_from_points, STAR_BONUS_PER_REPO, WEIGHT_PER_POINT])
  · exact (weights_normalization [] [exampleCurrentWeight]).2.2.1
      (by norm_num [List.filter, exampleCurrentWeight])

/-! ### Theorems: weight monotonicity (C4) -/

/-- Helper: the descending sort does not change any hotkey's published weight. -/
theorem publishedWeight_sortDesc (l : List WeightAssignment) (hk : String) :
    publishedWeight (sortWeightAssignmentsDesc l) hk = publishedWeight l hk := by
  unfold publishedWeight
  exact (((List.perm_insertionSort _ l).filter _).map _).sum_eq

/-- C4 counterexample: account A (three valid then four invalid issues,
reachable through the storage increments) has net points 2 and account B (one
valid issue) has net points 1, yet the published snapshot gives A weight 0 —
the penalty filter drops A even though its net points exceed B's — so
normalized weight is not monotone in net points. -/
theorem weight_monotonicity_counterexample :
    entryPenalizedPositive.net_points > entryOneValid.net_points ∧
    0 ≤ entryOneValid.net_points ∧
    publishedWeight (calculate_weights_from_leaderboard
      [entryPenalizedPositive, entryOneValid]) "hkA" = 0 ∧
    publishedWeight (calculate_weights_from_leaderboard
      [entryPenalizedPositive, entryOneValid]) "hkB" = 1 := by
  have hbA : balancePenalizedPositive = UserBalance.mk 3 4 0 0 true := rfl
  have hbB : balanceOneValid = UserBalance.mk 1 0 0 0 false := rfl
  have hnetA : calculate_net_points 3 4 0 = 2 := by
    norm_num [calculate_net_points, STAR_BONUS_PER_REPO, max_def]
  have hnetB : calculate_net_points 1 0 0 = 1 := by
    norm_num [calculate_net_points, STAR_BONUS_PER_REPO, max_def]
  have hwA : calculate_weight_from_points 3 0 = 3/40 := by
    rw [calculate_weight_from_points_eq]
    norm_num
  have hwB : calculate_weight_from_points 1 0 = 1/40 := by
    rw [calculate_weight_from_points_eq]
    norm_num
  have hEA : entryPenalizedPositive =
      LeaderboardEntry.mk 0 "hkA" "alice" (3/40) 3 4 0 0 0 2 true 0 := by
    rw [entryPenalizedPositive, hbA, rebuild_leaderboard_entry]
    dsimp only
    rw [hnetA, hwA]
    norm_num [STAR_BONUS_PER_REPO]
  have hEB : entryOneValid =
      LeaderboardEntry.mk 0 "hkB" "bob" (1/40) 1 0 0 0 0 1 false 0 := by
    rw [entryOneValid, hbB, rebuild_leaderboard_entry]
    dsimp only
    rw [hnetB, hwB]
    norm_num [STAR_BONUS_PER_REPO]
  have hcalc : calculate_weights_from_leaderboard [entryPenalizedPositive, entryOneValid] =
      [WeightAssignment.mk "hkB" 1] := by
    rw [hEA, hEB]
    unfold calculate_weights_from_leaderboard
    norm_num [List.filter_cons, sortWeightAssignmentsDesc, List.insertionSort,
      List.orderedInsert]
  refine ⟨?_, ?_, ?_, ?_⟩
  · rw [hEA, hEB]
    norm_num
  · rw [hEB]
    norm_num
  · rw [hcalc]
    simp [publishedWeight, List.filter_cons]
  · rw [hcalc]
    simp [publishedWeight, List.filter_cons]

/-- C4 amended: normalized weight is monotone in net points on the Postgres
path (where the weight is a monotone function of net points), and on the wasm
path whenever the better account is not penalized: its published weight then
dominates the other account's. The counterexample shows the restriction is
necessary — a penalized account with positive net points publishes weight 0. -/
theorem weight_monotonic_in_net_points
    (v1 i1 s1 v2 i2 s2 : ℕ) (T : ℚ)
    (bA bB : UserBalance) (hkA hkB gA gB : String) (eA eB : ℕ)
    (hA : ReachableBalance bA) (hB : ReachableBalance bB)
    (hne : hkA ≠ hkB) (hpenA : bA.is_penalized = false) :
    (0 < T → pg_net_points v2 i2 s2 ≤ pg_net_points v1 i1 s1 →
      pg_calculate_user_weight v2 i2 s2 / T ≤ pg_calculate_user_weight v1 i1 s1 / T) ∧
    (calculate_net_points bB.valid_count bB.invalid_count bB.star_count <
        calculate_net_points bA.valid_count bA.invalid_count bA.star_count →
      publishedWeight (calculate_weights_from_leaderboard
          [rebuild_leaderboard_entry hkA gA bA eA, rebuild_leaderboard_entry hkB gB bB eB])
          hkB ≤
      publishedWeight (calculate_weights_from_leaderboard
          [rebuild_leaderboard_entry hkA gA bA eA, rebuild_leaderboard_entry hkB gB bB eB])
          hkA) := by
  constructor
  · intro hT hle
    have := pg_calculate_user_weight_mono hle
    gcongr
  · intro hlt
    obtain ⟨hdupA, hvA, hiA, himpA⟩ := reachable_balance_invariant hA
    have hivA := himpA hpenA
    have hnetA_eq : calculate_net_points bA.valid_count bA.invalid_count bA.star_count =
        (bA.valid_count : ℚ) + bA.star_count * (1/4) :=
      calculate_net_points_no_penalty _ hivA
    have hnetB_nonneg :=
      calculate_net_points_nonneg bB.valid_count bB.invalid_count bB.star_count
    have hnetA_pos :
        0 < calculate_net_points bA.valid_count bA.invalid_count bA.star_count :=
      lt_of_le_of_lt hnetB_nonneg hlt
    have hscoreA : (rebuild_leaderboard_entry hkA gA bA eA).score =
        calculate_net_points bA.valid_count bA.invalid_count bA.star_count * (1/40) := by
      rw [rebuild_leaderboard_entry]
      dsimp only
      rw [calculate_weight_from_points_eq, hnetA_eq]
    have hscoreA_pos : (0 : ℚ) < (rebuild_leaderboard_entry hkA gA bA eA).score := by
      rw [hscoreA]
      exact mul_pos hnetA_pos (by norm_num)
    have hpenEA : (rebuild_leaderboard_entry hkA gA bA eA).is_penalized = false := by
      rw [rebuild_leaderboard_entry]
      exact hpenA
    by_cases hkeep : (rebuild_leaderboard_entry hkB gB bB eB).is_penalized = false ∧
        (rebuild_leaderboard_entry hkB gB bB eB).score > 0
    · -- account B survives the filter as well
      have hpenB : bB.is_penalized = false := by
        have := hkeep.1
        rw [rebuild_leaderboard_entry] at this
        exact this
      obtain ⟨hdupB, hvB, hiB, himpB⟩ := reachable_balance_invariant hB
      have hivB := himpB hpenB
      have hnetB_eq : calculate_net_points bB.valid_count bB.invalid_count bB.star_count =
          (bB.valid_count : ℚ) + bB.star_count * (1/4) :=
        calculate_net_points_no_penalty _ hivB
      have hscoreB : (rebuild_leaderboard_entry hkB gB bB eB).score =
          calculate_net_points bB.valid_count bB.invalid_count bB.star_count * (1/40) := by
        rw [rebuild_leaderboard_entry]
        dsimp only
        rw [calculate_weight_from_points_eq, hnetB_eq]
      have hscore_le : (rebuild_leaderboard_entry hkB gB bB eB).score ≤
          (rebuild_leaderboard_entry hkA gA bA eA).score := by
        rw [hscoreA, hscoreB]
        have h40 : (0 : ℚ) ≤ 1/40 := by norm_num
        exact mul_le_mul_of_nonneg_right hlt.le h40
      have hfilter :
          ([rebuild_leaderboard_entry hkA gA bA eA,
            rebuild_leaderboard_entry hkB gB bB eB].filter
              fun e => e.is_penalized = false ∧ e.score > 0) =
          [rebuild_leaderboard_entry hkA gA bA eA, rebuild_leaderboard_entry hkB gB bB eB] := by
        rw [List.filter_cons, List.filter_cons, List.filter_nil]
        rw [if_pos (decide_eq_true ⟨hpenEA, hscoreA_pos⟩), if_pos (decide_eq_true hkeep)]
      unfold calculate_weights_from_leaderboard
      rw [hfilter]
      dsimp only [List.map_cons, List.map_nil, List.sum_cons, List.sum_nil]
      set sA := (rebuild_leaderboard_entry hkA gA bA eA).score with hsA
      set sB := (rebuild_leaderboard_entry hkB gB bB eB).score with hsB
      have htot : (0 : ℚ) < sA + (sB + 0) := by
        have h1 := hkeep.2
        have h2 := hscoreA_pos
        linarith
      rw [if_pos htot, publishedWeight_sortDesc, publishedWeight_sortDesc]
      unfold publishedWeight
      rw [List.filter_cons, List.filter_cons, List.filter_nil,
        List.filter_cons, List.filter_cons, List.filter_nil]
      dsimp only
      rw [if_neg (by simpa [rebuild_leaderboard_entry] using hne),
        if_pos (by simp [rebuild_leaderboard_entry]),
        if_pos (by simp [rebuild_leaderboard_entry]),
        if_neg (by simpa [rebuild_leaderboard_entry] using hne.symm)]
      dsimp only [List.map_cons, List.map_nil, List.sum_cons, List.sum_nil]
      have hgoal : sB / (sA + (sB + 0)) ≤ sA / (sA + (sB + 0)) := by gcongr
      linarith
    · -- account B is filtered out and publishes weight zero
      have hfilter :
          ([rebuild_leaderboard_entry hkA gA bA eA,
            rebuild_leaderboard_entry hkB gB bB eB].filter
              fun e => e.is_penalized = false ∧ e.score > 0) =
          [rebuild_leaderboard_entry hkA gA bA eA] := by
        rw [List.filter_cons, List.filter_cons, List.filter_nil]
        rw [if_pos (decide_eq_true ⟨hpenEA, hscoreA_pos⟩), if_neg (by
          rw [decide_eq_false hkeep]
          exact Bool.false_ne_true)]
      unfold calculate_weights_from_leaderboard
      rw [hfilter]
      dsimp only [List.map_cons, List.map_nil, List.sum_cons, List.sum_nil]
      set sA := (rebuild_leaderboard_entry hkA gA bA eA).score with hsA
      have htot : (0 : ℚ) < sA + 0 := by linarith
      rw [if_pos htot, publishedWeight_sortDesc, publishedWeight_sortDesc]
      unfold publishedWeight
      rw [List.filter_cons, List.filter_nil, List.filter_cons, List.filter_nil]
      dsimp only
      rw [if_neg (by simpa [rebuild_leaderboard_entry] using hne),
        if_pos (by simp [rebuild_leaderboard_entry])]
      dsimp only [List.map_cons, List.map_nil, List.sum_cons, List.sum_nil]
      positivity

/-- Closed witness for the amended monotonicity theorem: one credited account
against the empty account, and the Postgres weights of the same two accounts
normalized by a total of 1. -/
theorem weight_monotonic_in_net_points_witness :
    pg_calculate_user_weight 0 0 0 / 1 ≤ pg_calculate_user_weight 1 0 0 / 1 ∧
    publishedWeight (calculate_weights_from_leaderboard
        [rebuild_leaderboard_entry "a" "ga" balanceOneValid 0,
         rebuild_leaderboard_entry "b" "gb" defaultUserBalance 0]) "b" ≤
    publishedWeight (calculate_weights_from_leaderboard
        [rebuild_leaderboard_entry "a" "ga" balanceOneValid 0,
         rebuild_leaderboard_entry "b" "gb" defaultUserBalance 0]) "a" := by
  have hreachA : ReachableBalance balanceOneValid :=
    ReachableBalance.step BalanceOp.validInc ReachableBalance.init
  have h := weight_monotonic_in_net_points 1 0 0 0 0 0 1
    balanceOneValid defaultUserBalance "a" "b" "ga" "gb" 0 0
    hreachA ReachableBalance.init (by simp) rfl
  refine ⟨h.1 (by norm_num) (by norm_num [pg_net_points]), h.2 ?_⟩
  show calculate_net_points 0 0 0 < calculate_net_points 1 0 0
  norm_num [calculate_net_points, STAR_BONUS_PER_REPO, max_def]

/-! ### Theorems: ledger machinery (shared by C3 and C7) -/

theorem assocFind_append_left {K V : Type} [DecidableEq K] {l : List (K × V)} {k : K}
    (l2 : List (K × V)) (h : (assocFind l k).isSome) :
    assocFind (l ++ l2) k = assocFind l k := by
  induction l with
  | nil => simp [assocFind] at h
  | cons hd tl ih =>
      obtain ⟨k2, v2⟩ := hd
      by_cases hk : k2 = k
      · simp [assocFind, hk]
      · simp only [assocFind, hk, if_false] at h
        simp only [List.cons_append, assocFind, hk, if_false]
        exact ih h

theorem assocFind_upsert_ne {K V : Type} [DecidableEq K] (l : List (K × V)) {k k2 : K}
    (v : V) (h : k2 ≠ k) :
    assocFind (assocUpsert l k v) k2 = assocFind l k2 := by
  induction l with
  | nil => simp [assocUpsert, assocFind, Ne.symm h]
  | cons hd tl ih =>
      obtain ⟨ka, va⟩ := hd
      by_cases hk : ka = k
      · subst hk
        simp [assocUpsert, assocFind, Ne.symm h]
      · simp [assocUpsert, assocFind, hk, ih]

theorem assocFind_insertIfAbsent_preserve {K V : Type} [DecidableEq K]
    {l : List (K × V)} {k2 : K} (k : K) (v : V) (h : (assocFind l k2).isSome) :
    (assocFind (assocInsertIfAbsent l k v) k2).isSome := by
  unfold assocInsertIfAbsent
  split_ifs with hx
  · exact h
  · rw [assocFind_append_left _ h]
    exact h

theorem apply_change_github_issues (s : PgState) (key : String × String × ℕ)
    (issue : GitHubIssue) (c : LabelChange) :
    (apply_change s key issue c).github_issues = s.github_issues := by
  cases c <;> rfl

theorem apply_change_invalid_of_ne (s : PgState) (key : String × String × ℕ)
    (issue : GitHubIssue) {c : LabelChange} (h : c ≠ LabelChange.becameInvalid) :
    (apply_change s key issue c).invalid_issues = s.invalid_issues := by
  cases c with
  | becameInvalid => exact absurd rfl h
  | lostValid => rfl
  | becameValid => rfl
  | none => rfl

theorem apply_change_invalid_isSome (s : PgState) (key : String × String × ℕ)
    (issue : GitHubIssue) (c : LabelChange) {k2 : String × String × ℕ}
    (h : (assocFind s.invalid_issues k2).isSome) :
    (assocFind (apply_change s key issue c).invalid_issues k2).isSome := by
  cases c with
  | becameInvalid => exact assocFind_insertIfAbsent_preserve _ _ h
  | lostValid => exact h
  | becameValid => exact h
  | none => exact h

theorem classify_change_second (hv hi ac ar : Bool) :
    ¬(hv = true ∧ hi = true) → (hv = true → ac = true) → (hi = true → ar = true) →
    classify_change hv hi hv hi ac ar = LabelChange.none := by
  cases hv <;> cases hi <;> cases ac <;> cases ar <;> decide

theorem classify_change_valid_only (hadv hadi ac ar : Bool) :
    classify_change true false hadv hadi ac ar =
      (if ac = true then LabelChange.none else LabelChange.becameValid) := by
  cases hadv <;> cases hadi <;> cases ac <;> cases ar <;> decide

theorem classify_change_invalid_cases (hv hadv hadi ac ar : Bool) :
    classify_change hv true hadv hadi ac ar = LabelChange.becameInvalid ∨
    (classify_change hv true hadv hadi ac ar ≠ LabelChange.becameInvalid ∧
      (ar = true ∨ hadi = true)) := by
  cases hv <;> cases hadv <;> cases hadi <;> cases ac <;> cases ar <;> decide

theorem classify_change_no_marker_rewrite (hv hi hadv hadi ac : Bool) :
    classify_change hv hi hadv hadi ac true ≠ LabelChange.becameInvalid := by
  cases hv <;> cases hi <;> cases hadv <;> cases hadi <;> cases ac <;> decide

theorem upsert_issue_snd_github (s : PgState) (issue : GitHubIssue) (ro rn : String) :
    (upsert_issue s issue ro rn).2.github_issues =
      assocUpsert s.github_issues (ro, rn, issue.number) (upsert_row issue) := by
  have h : (upsert_issue s issue ro rn).2.github_issues =
      assocUpsert (apply_change s (ro, rn, issue.number) issue
        (upsert_change s issue ro rn)).github_issues (ro, rn, issue.number)
        (upsert_row issue) := rfl
  rw [h, apply_change_github_issues]

theorem upsert_issue_snd_resolved (s : PgState) (issue : GitHubIssue) (ro rn : String) :
    (upsert_issue s issue ro rn).2.resolved_issues =
      (apply_change s (ro, rn, issue.number) issue
        (upsert_change s issue ro rn)).resolved_issues := rfl

theorem upsert_issue_snd_invalid (s : PgState) (issue : GitHubIssue) (ro rn : String) :
    (upsert_issue s issue ro rn).2.invalid_issues =
      (apply_change s (ro, rn, issue.number) issue
        (upsert_change s issue ro rn)).invalid_issues := rfl

/-- Helper: after syncing a snapshot that carries `valid` and not `invalid`,
the credit row for that issue is present. -/
theorem upsert_issue_credit_present (s : PgState) (issue : GitHubIssue) (ro rn : String)
    (hval : issue.labels.contains "valid" = true)
    (hinval : issue.labels.contains "invalid" = false) :
    (assocFind (upsert_issue s issue ro rn).2.resolved_issues
      (ro, rn, issue.number)).isSome = true := by
  rw [upsert_issue_snd_resolved]
  have hch : upsert_change s issue ro rn =
      (if (assocFind s.resolved_issues (ro, rn, issue.number)).isSome = true
       then LabelChange.none else LabelChange.becameValid) := by
    unfold upsert_change
    rw [hval, hinval]
    exact classify_change_valid_only _ _ _ _
  rw [hch]
  split_ifs with hac
  · exact hac
  · exact assocFind_insertIfAbsent_isSome _ _ _

/-- Helper: after syncing a snapshot that carries `invalid`, the penalty
marker for that issue is present, provided the ledger satisfies its
marker-consistency invariant. -/
theorem upsert_issue_marker_present (s : PgState) (issue : GitHubIssue) (ro rn : String)
    (hinv : PgInv s) (hinval : issue.labels.contains "invalid" = true) :
    (assocFind (upsert_issue s issue ro rn).2.invalid_issues
      (ro, rn, issue.number)).isSome = true := by
  rw [upsert_issue_snd_invalid]
  have hch : upsert_change s issue ro rn =
      classify_change (issue.labels.contains "valid") true
        (((assocFind s.github_issues (ro, rn, issue.number)).map
            fun r => r.labels.contains "valid").getD false)
        (((assocFind s.github_issues (ro, rn, issue.number)).map
            fun r => r.labels.contains "invalid").getD false)
        ((assocFind s.resolved_issues (ro, rn, issue.number)).isSome)
        ((assocFind s.invalid_issues (ro, rn, issue.number)).isSome) := by
    unfold upsert_change
    rw [hinval]
  rcases classify_change_invalid_cases (issue.labels.contains "valid")
      (((assocFind s.github_issues (ro, rn, issue.number)).map
          fun r => r.labels.contains "valid").getD false)
      (((assocFind s.github_issues (ro, rn, issue.number)).map
          fun r => r.labels.contains "invalid").getD false)
      ((assocFind s.resolved_issues (ro, rn, issue.number)).isSome)
      ((assocFind s.invalid_issues (ro, rn, issue.number)).isSome) with hbi | ⟨hne2, hor⟩
  · rw [hch, hbi]
    exact assocFind_insertIfAbsent_isSome _ _ _
  · rw [hch, apply_change_invalid_of_ne s _ issue hne2]
    rcases hor with har | hadi
    · exact har
    · cases hprev : assocFind s.github_issues (ro, rn, issue.number) with
      | none => rw [hprev] at hadi; simp at hadi
      | some r =>
          rw [hprev] at hadi
          simp only [Option.map_some', Option.getD_some] at hadi
          exact hinv _ r hprev hadi

/-- Helper: the marker-consistency invariant is preserved by every sync
observation, so it holds in all states the ledger itself produces. -/
theorem PgInv_upsert (s : PgState) (issue : GitHubIssue) (ro rn : String)
    (hinv : PgInv s) : PgInv (upsert_issue s issue ro rn).2 := by
  intro key2 row2 hfind hlab
  by_cases hk : key2 = (ro, rn, issue.number)
  · subst hk
    rw [upsert_issue_snd_github, assocFind_upsert_self] at hfind
    injection hfind with h
    subst h
    exact upsert_issue_marker_present s issue ro rn hinv hlab
  · rw [upsert_issue_snd_github, assocFind_upsert_ne _ _ hk] at hfind
    have hmarker := hinv key2 row2 hfind hlab
    rw [upsert_issue_snd_invalid]
    exact apply_change_invalid_isSome _ _ _ _ hmarker

/-- Helper: applying the same snapshot a second time is a no-op: the second
transition is `None` and the state is unchanged — provided the snapshot does
not carry the `valid` and `invalid` labels simultaneously. -/
theorem upsert_issue_second_noop (s : PgState) (issue : GitHubIssue) (ro rn : String)
    (hinv : PgInv s)
    (hnot : ¬(issue.labels.contains "valid" = true ∧
      issue.labels.contains "invalid" = true)) :
    upsert_issue (upsert_issue s issue ro rn).2 issue ro rn =
      (LabelChange.none, (upsert_issue s issue ro rn).2) := by
  set s1 := (upsert_issue s issue ro rn).2 with hs1
  have hrow : assocFind s1.github_issues (ro, rn, issue.number) =
      some (upsert_row issue) := by
    rw [hs1, upsert_issue_snd_github]
    exact assocFind_upsert_self _ _ _
  have hcredit : issue.labels.contains "valid" = true →
      (assocFind s1.resolved_issues (ro, rn, issue.number)).isSome = true := by
    intro hval
    have hinval : issue.labels.contains "invalid" = false := by
      cases hx : issue.labels.contains "invalid"
      · rfl
      · exact absurd ⟨hval, hx⟩ hnot
    rw [hs1]
    exact upsert_issue_credit_present s issue ro rn hval hinval
  have hmarker : issue.labels.contains "invalid" = true →
      (assocFind s1.invalid_issues (ro, rn, issue.number)).isSome = true := by
    intro hinval
    rw [hs1]
    exact upsert_issue_marker_present s issue ro rn hinv hinval
  have hch2 : upsert_change s1 issue ro rn = LabelChange.none := by
    unfold upsert_change
    dsimp only
    rw [hrow]
    simp only [Option.map_some', Option.getD_some]
    exact classify_change_second _ _ _ _ hnot hcredit hmarker
  have hfin : upsert_issue s1 issue ro rn =
      (LabelChange.none, PgState.mk
        (assocUpsert s1.github_issues (ro, rn, issue.number) (upsert_row issue))
        s1.resolved_issues s1.invalid_issues s1.github_registrations) := by
    unfold upsert_issue
    rw [hch2]
    rfl
  rw [hfin]
  have hgit : assocUpsert s1.github_issues (ro, rn, issue.number) (upsert_row issue) =
      s1.github_issues := by
    rw [hs1, upsert_issue_snd_github]
    exact assocUpsert_idem _ _ _
  rw [hgit]

/-! ### Theorems: at-most-once credit and snapshot idempotence (C3) -/

/-- C3 counterexample: a snapshot carrying both the `valid` and the `invalid`
label applied twice to a fresh ledger is not idempotent — the first
application records the penalty (`BecameInvalid`) and the second application
credits the issue (`BecameValid`), raising the author's validCount from 0 to 1
on the second call. -/
theorem issue_idempotence_counterexample :
    dualUpsertOnce.1 = LabelChange.becameInvalid ∧
    dualUpsertTwice.1 = LabelChange.becameValid ∧
    pg_valid_count dualUpsertOnce.2 "hk" = 0 ∧
    pg_valid_count dualUpsertTwice.2 "hk" = 1 := by
  decide

/-- C3 amended: a wasm issue record is credited at most once — a second
`record_valid_issue` for an already-recorded key fails and changes nothing —
and re-applying the same `(labels, state)` snapshot through `upsert_issue` is
a no-op (transition `None`, state unchanged, hence validCount and invalidCount
unchanged), provided the snapshot does not carry the `valid` and `invalid`
labels at the same time. -/
theorem issue_credit_once_and_idempotent
    (s : WasmState) (num : ℕ) (ro rn author hk : String) (epoch : ℕ)
    (p : PgState) (issue : GitHubIssue)
    (hpinv : PgInv p)
    (hnot : ¬(issue.labels.contains "valid" = true ∧
      issue.labels.contains "invalid" = true)) :
    ((assocFind s.issues (ro, rn, num)).isSome →
      record_valid_issue s num ro rn author hk epoch = (false, s)) ∧
    upsert_issue (upsert_issue p issue ro rn).2 issue ro rn =
      (LabelChange.none, (upsert_issue p issue ro rn).2) := by
  constructor
  · intro h
    unfold record_valid_issue
    rw [if_pos h]
  · exact upsert_issue_second_noop p issue ro rn hpinv hnot

/-- Closed witness: a second claim of the same issue is rejected without any
state change, and a second sync of a valid-labeled snapshot is a no-op. -/
theorem issue_credit_once_and_idempotent_witness :
    record_valid_issue (record_valid_issue wasmStateAliceRegistered 9 "o" "r"
        "alice" "hk" 0).2 9 "o" "r" "alice" "hk" 0 =
      (false, (record_valid_issue wasmStateAliceRegistered 9 "o" "r" "alice" "hk" 0).2) ∧
    upsert_issue (upsert_issue pgStateAliceRegistered validLabelIssue "o" "r").2
        validLabelIssue "o" "r" =
      (LabelChange.none, (upsert_issue pgStateAliceRegistered validLabelIssue "o" "r").2) := by
  have hpinv : PgInv pgStateAliceRegistered := by
    intro key row hf hlab
    simp [pgStateAliceRegistered, assocFind] at hf
  have h := issue_credit_once_and_idempotent
    (record_valid_issue wasmStateAliceRegistered 9 "o" "r" "alice" "hk" 0).2
    9 "o" "r" "alice" "hk" 0 pgStateAliceRegistered validLabelIssue hpinv (by decide)
  exact ⟨h.1 (by decide), h.2⟩

/-! ### Theorems: penalty marker and double penalties (C7) -/

/-- C7 counterexample: the wasm `record_invalid_issue` path double-penalizes —
two identical invalid observations of the same issue both succeed and raise
the author's invalidCount from 1 to 2. -/
theorem double_penalty_counterexample :
    invalidOnce.1 = true ∧ invalidTwice.1 = true ∧
    (get_user_balance invalidOnce.2 "hk").invalid_count = 1 ∧
    (get_user_balance invalidTwice.2 "hk").invalid_count = 2 := by
  decide

/-- C7 amended: recording an issue as invalid writes the penalty marker under
the composite `(repoOwner, repoName, issueNumber)` key; on the ledger path
(`upsert_issue`) a present marker means a re-observation never classifies as
`BecameInvalid` again and leaves the marker table — hence every invalidCount —
unchanged. The wasm `record_invalid_issue` path has no such guard (see the
counterexample). -/
theorem invalid_penalty_marker_no_double (s : WasmState) (num : ℕ)
    (ro rn gu : String) (reason : Option String) (epoch : ℕ)
    (p : PgState) (issue : GitHubIssue) (ro2 rn2 : String) :
    (assocFind (record_invalid_issue s num ro rn gu reason epoch).2.invalidIssues
        (ro, rn, num) =
      some (InvalidIssueRecord.mk num ro rn gu reason epoch)) ∧
    ((assocFind p.invalid_issues (ro2, rn2, issue.number)).isSome →
      (upsert_issue p issue ro2 rn2).1 ≠ LabelChange.becameInvalid ∧
      (upsert_issue p issue ro2 rn2).2.invalid_issues = p.invalid_issues) := by
  constructor
  · have hmarker : (record_invalid_issue s num ro rn gu reason epoch).2.invalidIssues =
        assocUpsert s.invalidIssues (ro, rn, num)
          (InvalidIssueRecord.mk num ro rn gu reason epoch) := by
      unfold record_invalid_issue
      dsimp only
      split <;> rfl
    rw [hmarker]
    exact assocFind_upsert_self _ _ _
  · intro h
    have hne : upsert_change p issue ro2 rn2 ≠ LabelChange.becameInvalid := by
      unfold upsert_change
      dsimp only
      rw [h]
      exact classify_change_no_marker_rewrite _ _ _ _ _
    refine ⟨hne, ?_⟩
    rw [upsert_issue_snd_invalid]
    exact apply_change_invalid_of_ne p _ issue hne

/-- Closed witness: the marker of a concrete invalid observation is stored
under its composite key, and a re-sync of the dual-label issue against the
state already holding its marker does not penalize again. -/
theorem invalid_penalty_marker_no_double_witness :
    assocFind (record_invalid_issue wasmStateAliceRegistered 5 "o" "r" "alice"
        (some "spam") 0).2.invalidIssues (("o" : String), ("r" : String), (5 : ℕ)) =
      some (InvalidIssueRecord.mk 5 "o" "r" "alice" (some "spam") 0) ∧
    (upsert_issue dualUpsertOnce.2 dualLabelIssue "o" "r").1 ≠
      LabelChange.becameInvalid ∧
    (upsert_issue dualUpsertOnce.2 dualLabelIssue "o" "r").2.invalid_issues =
      dualUpsertOnce.2.invalid_issues := by
  have h := invalid_penalty_marker_no_double wasmStateAliceRegistered 5 "o" "r" "alice"
    (some "spam") 0 dualUpsertOnce.2 dualLabelIssue "o" "r"
  exact ⟨h.1, (h.2 (by decide)).1, (h.2 (by decide)).2⟩

/-! ### Theorems: registration binding immutability (C8) -/

/-- C8 counterexample: `PgStorage::register_user` itself has no conflict
guard — called directly (as the challenge-evaluation register path does) with
an already-bound username and a different hotkey, it silently rebinds the
username instead of rejecting. -/
theorem registration_overwrite_counterexample :
    regs_hotkey_by_github [("alice", "hk1")] "alice" = some "hk1" ∧
    pg_register_user [("alice", "hk1")] "alice" "hk2" = [("alice", "hk2")] ∧
    regs_hotkey_by_github (pg_register_user [("alice", "hk1")] "alice" "hk2") "alice" =
      some "hk2" := by
  decide

/-- C8 amended: the wasm `register_user` and the HTTP `register_handler` flow
both reject a re-registration of a bound username with a different hotkey, or
of a bound hotkey with a different (case-insensitive) username, leaving the
store unchanged; only the raw `PgStorage::register_user` (see the
counterexample) overwrites. -/
theorem registration_binding_immutable (s : WasmState) (g h : String) (epoch : ℕ)
    (regs : List (String × String)) :
    ((∃ e, get_hotkey_by_github s g = some e ∧ e ≠ h) →
      register_user s g h epoch = (false, s)) ∧
    ((∃ e, get_github_by_hotkey s h = some e ∧ lowerString e ≠ lowerString g) →
      register_user s g h epoch = (false, s)) ∧
    ((∃ e, regs_hotkey_by_github regs g = some e ∧ e ≠ h) →
      register_handler_flow regs g h = (false, regs)) ∧
    ((∃ e, regs_github_by_hotkey regs h = some e ∧ lowerString e ≠ lowerString g) →
      register_handler_flow regs g h = (false, regs)) := by
  refine ⟨?_, ?_, ?_, ?_⟩
  · rintro ⟨e, hex, hne⟩
    unfold register_user
    rw [hex]
    dsimp only
    rw [if_pos hne]
  · rintro ⟨e, hex, hne⟩
    unfold register_user register_user_tail
    cases hx : get_hotkey_by_github s g with
    | none =>
        dsimp only
        rw [hex]
        dsimp only
        rw [if_pos hne]
    | some e2 =>
        dsimp only
        by_cases h2 : e2 ≠ h
        · rw [if_pos h2]
        · rw [if_neg h2, hex]
          dsimp only
          rw [if_pos hne]
  · rintro ⟨e, hex, hne⟩
    unfold register_handler_flow
    rw [hex]
    dsimp only
    rw [if_pos hne]
  · rintro ⟨e, hex, hne⟩
    unfold register_handler_flow register_handler_tail
    cases hx : regs_hotkey_by_github regs g with
    | none =>
        dsimp only
        rw [hex]
        dsimp only
        rw [if_pos hne]
    | some e2 =>
        dsimp only
        by_cases h2 : e2 ≠ h
        · rw [if_pos h2]
        · rw [if_neg h2, hex]
          dsimp only
          rw [if_pos hne]

/-- Closed witness: with alice bound to hk, registering alice under hk2 and
registering bob under hk are both rejected with no state change, on the wasm
store and on the server flow alike. -/
theorem registration_binding_immutable_witness :
    register_user wasmStateAliceRegistered "alice" "hk2" 0 =
      (false, wasmStateAliceRegistered) ∧
    register_user wasmStateAliceRegistered "bob" "hk" 0 =
      (false, wasmStateAliceRegistered) ∧
    register_handler_flow [("alice", "hk")] "alice" "hk2" =
      (false, [("alice", "hk")]) ∧
    register_handler_flow [("alice", "hk")] "bob" "hk" =
      (false, [("alice", "hk")]) := by
  refine ⟨?_, ?_, ?_, ?_⟩
  · exact (registration_binding_immutable wasmStateAliceRegistered "alice" "hk2" 0
      [("alice", "hk")]).1 ⟨"hk", by decide, by decide⟩
  · exact (registration_binding_immutable wasmStateAliceRegistered "bob" "hk" 0
      [("alice", "hk")]).2.1 ⟨"alice", by decide, by decide⟩
  · exact (registration_binding_immutable wasmStateAliceRegistered "alice" "hk2" 0
      [("alice", "hk")]).2.2.1 ⟨"hk", by decide, by decide⟩
  · exact (registration_binding_immutable wasmStateAliceRegistered "bob" "hk" 0
      [("alice", "hk")]).2.2.2 ⟨"alice", by decide, by decide⟩

/-! ### Theorems: admin bonus gating (C9) -/

/-- C9: an admin bonus contributes its bonusWeight exactly when it is active
and unexpired (evaluated at read time by the pure contribution function);
an expired-but-active bonus contributes 0 with no write; revoking flips
`active` to false immediately regardless of `expiresAt`, appends the audit
annotation to the reason, keeps `expiresAt`, and the revoked bonus
contributes 0; rows not matching the revoked id are untouched. -/
theorem admin_bonus_gating (now : ℕ) (b : AdminBonus) (bonuses : List AdminBonus)
    (bonus_id : ℤ) (revoked_by : String) :
    (b.active = true ∧ now < b.expires_at → bonus_contribution now b = b.bonus_weight) ∧
    (b.active = true → b.expires_at ≤ now → bonus_contribution now b = 0) ∧
    (b.active = false → bonus_contribution now b = 0) ∧
    (∀ b2, b2 ∈ list_active_bonuses now bonuses ↔
      b2 ∈ bonuses ∧ b2.active = true ∧ now < b2.expires_at) ∧
    (∀ b0 ∈ bonuses, b0.id = bonus_id → b0.active = true →
      ∃ b1 ∈ (revoke_bonus bonuses bonus_id revoked_by).2,
        b1.active = false ∧ b1.expires_at = b0.expires_at ∧
        b1.reason = some ((b0.reason.getD "") ++ " [Revoked by " ++ revoked_by ++ "]") ∧
        bonus_contribution now b1 = 0) ∧
    (∀ b0 ∈ bonuses, ¬(b0.id = bonus_id ∧ b0.active = true) →
      b0 ∈ (revoke_bonus bonuses bonus_id revoked_by).2) := by
  refine ⟨?_, ?_, ?_, ?_, ?_, ?_⟩
  · intro h
    rw [bonus_contribution, if_pos h]
  · intro hact hexp
    rw [bonus_contribution, if_neg]
    rintro ⟨h1, h2⟩
    exact absurd h2 (not_lt.mpr hexp)
  · intro hact
    rw [bonus_contribution, if_neg]
    rintro ⟨h1, h2⟩
    rw [hact] at h1
    exact Bool.false_ne_true h1
  · intro b2
    simp [list_active_bonuses, List.mem_filter, decide_eq_true_eq]
  · intro b0 hmem hid hact
    have hmap := List.mem_map_of_mem (fun b : AdminBonus =>
      if b.id = bonus_id ∧ b.active = true then
        { b with
          active := false,
          reason := some ((b.reason.getD "") ++ " [Revoked by " ++ revoked_by ++ "]") }
      else b) hmem
    dsimp only at hmap
    rw [if_pos ⟨hid, hact⟩] at hmap
    refine ⟨_, hmap, rfl, rfl, rfl, ?_⟩
    rw [bonus_contribution, if_neg]
    rintro ⟨h1, h2⟩
    exact Bool.false_ne_true h1
  · intro b0 hmem hnot
    have hmap := List.mem_map_of_mem (fun b : AdminBonus =>
      if b.id = bonus_id ∧ b.active = true then
        { b with
          active := false,
          reason := some ((b.reason.getD "") ++ " [Revoked by " ++ revoked_by ++ "]") }
      else b) hmem
    dsimp only at hmap
    rw [if_neg hnot] at hmap
    exact hmap

/-- Closed witness: the expired-but-active bonus contributes 0 at its expiry
time, and revoking the active bonus yields an inactive row with the audited
reason contributing 0. -/
theorem admin_bonus_gating_witness :
    bonus_contribution 10 exampleExpiredBonus = 0 ∧
    (∃ b1 ∈ (revoke_bonus [exampleActiveBonus] 2 "root").2,
      b1.active = false ∧ b1.expires_at = 100 ∧
      b1.reason = some "good [Revoked by root]" ∧ bonus_contribution 0 b1 = 0) := by
  constructor
  · exact (admin_bonus_gating 10 exampleExpiredBonus [] 0 "x").2.1 rfl (le_refl 10)
  · obtain ⟨b1, hmem, h1, h2, h3, h4⟩ :=
      (admin_bonus_gating 0 exampleActiveBonus [exampleActiveBonus] 2 "root").2.2.2.2.1
        exampleActiveBonus (by simp) rfl rfl
    refine ⟨b1, hmem, h1, ?_, ?_, h4⟩
    · rw [h2]
      rfl
    · rw [h3]
      rfl

end Bounty
